import Mathlib

/-!
Shallow embedding of `frame/system/src/offchain.rs` (Substrate off-chain
transaction signing and submission framework).

The Rust module is generic over a runtime configuration `T` providing the
public-key type, signature type, account-id type, call types and the
external collaborators (keystore, extrinsic constructor, inclusion queue).
We embed that configuration as an explicit record of types and functions
(`Env`).  The `From`/`Into` conversions between `T::Public`, its
`AppPublic::Generic` wrapper and the `RuntimeAppPublic` key type are
round-tripping newtype conversions in the source; they are modelled as the
identity, so `Env.allKeys` directly lists values of the public-key type.

Stateful code (`crate::Account::<T>::get` / `insert`, the per-account nonce
map of `frame_system`) is embedded by explicit state passing: every
operation that may touch the storage map takes and returns a `State`.
The closures handed to `for_all` / `for_any` in the source may perform
storage effects, so the embedded `for_all` / `for_any` thread a state of an
arbitrary type `σ` through the per-account operation, evaluating accounts
left to right exactly as the Rust iterators do.
-/

namespace Offchain

/-- `Result<(), ()>` of the inclusion-queue hand-off. -/
inductive TxResult : Type where
  | ok : TxResult
  | err : TxResult
deriving DecidableEq, Repr

/-- `Account<T>`: index within the current selection, derived address, public key. -/
structure Account (Pub AccountId : Type) where
  index : Nat
  id : AccountId
  public : Pub
deriving DecidableEq, Repr

/-- Modelled from the spec: the per-account record held by the external
account-state map (`crate::Account` storage of `frame_system`, outside this
file).  The spec only requires a sequence counter (`nonce`) plus whatever
other account state the host stores; the rest is kept abstract in `data`. -/
structure AccountData (D : Type) where
  nonce : Nat
  data : D
deriving DecidableEq, Repr

/-- Modelled from the spec: the in-memory account-state map, an injected
store interface `get_nonce(account) / set_nonce(account, n)` generalised to
whole `AccountData` records, embedded as a total function. -/
def State (AccountId D : Type) : Type := AccountId → AccountData D

/-- `crate::Account::<T>::get(&id)`. -/
def State.get {AccountId D : Type} (st : State AccountId D) (i : AccountId) :
    AccountData D := st i

/-- `crate::Account::<T>::insert(&id, v)`. -/
def State.insert {AccountId D : Type} [DecidableEq AccountId]
    (st : State AccountId D) (i : AccountId) (v : AccountData D) :
    State AccountId D :=
  fun j => if j = i then v else st j

/-- The runtime configuration `T` together with its external collaborators:

* `allKeys` — `<T::Public as RuntimeAppPublic>::all()`, the keys of the
  app-specific type currently registered with the key-holder;
* `into_account` — `IdentifyAccount::into_account`;
* `raSign` / `raVerify` — `RuntimeAppPublic::sign` / `verify`, the
  key-holder backed signing capability over byte strings;
* `intoCall` — `From<LocalCall> for OverarchingCall`;
* `create_transaction` — `CreateSignedTransaction::create_transaction`,
  the external transaction-construction hook;
* `newExtrinsic` — `T::Extrinsic::new` (may decline);
* `encodeXt` — `Encode::encode` of the extrinsic;
* `poolSubmit` — `sp_io::offchain::submit_transaction`, the inclusion
  queue hand-off. -/
structure Env (Pub AccountId Sig LocalCall Call SigPay Xt : Type) where
  allKeys : List Pub
  into_account : Pub → AccountId
  raSign : Pub → List Nat → Option Sig
  raVerify : Pub → List Nat → Sig → Bool
  intoCall : LocalCall → Call
  create_transaction : Call → Pub → AccountId → Nat → Option (Call × SigPay)
  newExtrinsic : Call → Option SigPay → Option Xt
  encodeXt : Xt → List Nat
  poolSubmit : List Nat → TxResult

variable {Pub AccountId Sig LocalCall Call SigPay Xt D σ R P : Type}

/-- `SigningTypes::sign`: delegate to `RuntimeAppPublic::sign`; the
`Into` conversion between the app signature and `T::Signature` is the
identity in this embedding. -/
def SigningTypes.sign (env : Env Pub AccountId Sig LocalCall Call SigPay Xt)
    (payload : List Nat) (public : Pub) : Option Sig :=
  env.raSign public payload

/-- `SigningTypes::verify`. -/
def SigningTypes.verify (env : Env Pub AccountId Sig LocalCall Call SigPay Xt)
    (payload : List Nat) (public : Pub) (signature : Sig) : Bool :=
  env.raVerify public payload signature

/-- The same runtime configuration with a different inclusion queue;
used to express that a code path never reaches the hand-off. -/
def Env.withPoolSubmit (env : Env Pub AccountId Sig LocalCall Call SigPay Xt)
    (q : List Nat → TxResult) : Env Pub AccountId Sig LocalCall Call SigPay Xt :=
  ⟨env.allKeys, env.into_account, env.raSign, env.raVerify, env.intoCall,
   env.create_transaction, env.newExtrinsic, env.encodeXt, q⟩

/-- The same runtime configuration with a different set of keys registered
with the key-holder; used to express that a code path never consults the
key-holder's enumeration. -/
def Env.withAllKeys (env : Env Pub AccountId Sig LocalCall Call SigPay Xt)
    (keys : List Pub) : Env Pub AccountId Sig LocalCall Call SigPay Xt :=
  ⟨keys, env.into_account, env.raSign, env.raVerify, env.intoCall,
   env.create_transaction, env.newExtrinsic, env.encodeXt, env.poolSubmit⟩

/-- The `accounts` field of `Signer<T, X>`: `None` enumerates the
key-holder, `Some accounts` enumerates the supplied filter list. -/
def Signer (Pub : Type) : Type := Option (List Pub)

/-- `Signer::all_accounts()` / `Signer::any_account()`: `Default::default()`,
i.e. no filter. -/
def Signer.default : Signer Pub := none

/-- `Signer::with_filter(accounts)`: replace the account list. -/
def Signer.with_filter (_self : Signer Pub) (accounts : List Pub) : Signer Pub :=
  some accounts

/-- One step of account construction shared by both `for_all` branches:
`Account::new(index, key.into_account(), key)`. -/
def mkAccount (env : Env Pub AccountId Sig LocalCall Call SigPay Xt)
    (index : Nat) (key : Pub) : Account Pub AccountId :=
  ⟨index, env.into_account key, key⟩

/-- The loop of `Signer::<T, ForAll>::for_all` over a key list starting at
a given index: apply `f` to each enumerated account left to right,
threading the ambient state, and keep the `(account, result)` pairs whose
result is `some`. -/
def forAllKeys (env : Env Pub AccountId Sig LocalCall Call SigPay Xt)
    (f : Account Pub AccountId → σ → Option R × σ) :
    List Pub → Nat → σ → List (Account Pub AccountId × R) × σ
  | [], _, s => ([], s)
  | key :: rest, index, s =>
    let account := mkAccount env index key
    let rs := f account s
    let tail := forAllKeys env f rest (index + 1) rs.2
    match rs.1 with
    | some r => ((account, r) :: tail.1, tail.2)
    | none => tail

/-- `Signer::<T, ForAll>::for_all`: enumerate the filter list when one was
supplied, otherwise the key-holder's registered keys. -/
def for_all (env : Env Pub AccountId Sig LocalCall Call SigPay Xt)
    (signer : Signer Pub)
    (f : Account Pub AccountId → σ → Option R × σ) (s : σ) :
    List (Account Pub AccountId × R) × σ :=
  match signer with
  | some accounts => forAllKeys env f accounts 0 s
  | none => forAllKeys env f env.allKeys 0 s

/-- The loop of `Signer::<T, ForAny>::for_any`: apply `f` to each
enumerated account in order and return the first `(account, result)` pair
where `f` produced `some`, short-circuiting the rest. -/
def forAnyKeys (env : Env Pub AccountId Sig LocalCall Call SigPay Xt)
    (f : Account Pub AccountId → σ → Option R × σ) :
    List Pub → Nat → σ → Option (Account Pub AccountId × R) × σ
  | [], _, s => (none, s)
  | key :: rest, index, s =>
    let account := mkAccount env index key
    let rs := f account s
    match rs.1 with
    | some r => (some (account, r), rs.2)
    | none => forAnyKeys env f rest (index + 1) rs.2

/-- `Signer::<T, ForAny>::for_any`. -/
def for_any (env : Env Pub AccountId Sig LocalCall Call SigPay Xt)
    (signer : Signer Pub)
    (f : Account Pub AccountId → σ → Option R × σ) (s : σ) :
    Option (Account Pub AccountId × R) × σ :=
  match signer with
  | some accounts => forAnyKeys env f accounts 0 s
  | none => forAnyKeys env f env.allKeys 0 s

/-- `SignMessage for Signer<T, ForAll>::sign_message`: the per-account
operation is `T::sign(message, public)`, which performs no storage effect. -/
def ForAll.sign_message (env : Env Pub AccountId Sig LocalCall Call SigPay Xt)
    (signer : Signer Pub) (message : List Nat) :
    List (Account Pub AccountId × Sig) :=
  (for_all env signer
    (fun account (u : Unit) => (SigningTypes.sign env message account.public, u))
    ()).1

/-- `SignMessage for Signer<T, ForAny>::sign_message`. -/
def ForAny.sign_message (env : Env Pub AccountId Sig LocalCall Call SigPay Xt)
    (signer : Signer Pub) (message : List Nat) :
    Option (Account Pub AccountId × Sig) :=
  (for_any env signer
    (fun account (u : Unit) => (SigningTypes.sign env message account.public, u))
    ()).1

/-- `SubmitTransaction::submit_transaction`: build the extrinsic
(`Extrinsic::new`, `None` means construction declined, mapped to `Err`) and
hand its encoding to the inclusion queue. -/
def submit_transaction (env : Env Pub AccountId Sig LocalCall Call SigPay Xt)
    (call : Call) (signature : Option SigPay) : TxResult :=
  match env.newExtrinsic call signature with
  | none => TxResult.err
  | some xt => env.poolSubmit (env.encodeXt xt)

/-- `SubmitTransaction::submit_unsigned_transaction`. -/
def submit_unsigned_call (env : Env Pub AccountId Sig LocalCall Call SigPay Xt)
    (call : Call) : TxResult :=
  submit_transaction env call none

/-- `SendSignedTransaction::submit_signed_transaction` (trait default):
read the account's stored nonce, run the transaction-construction hook
(declining yields no result), hand the signed extrinsic to the queue, and
on `Ok` write back the record with the nonce incremented by one. -/
def submit_signed_transaction [DecidableEq AccountId]
    (env : Env Pub AccountId Sig LocalCall Call SigPay Xt)
    (account : Account Pub AccountId) (call : LocalCall)
    (st : State AccountId D) : Option TxResult × State AccountId D :=
  let account_data := st.get account.id
  match env.create_transaction (env.intoCall call) account.public account.id
      account_data.nonce with
  | none => (none, st)
  | some (call2, signature) =>
    let res := submit_transaction env call2 (some signature)
    match res with
    | TxResult.ok =>
      (some TxResult.ok,
        st.insert account.id ⟨account_data.nonce + 1, account_data.data⟩)
    | TxResult.err => (some TxResult.err, st)

/-- `SendSignedTransaction for Signer<T, ForAny>::send_signed_transaction`. -/
def ForAny.send_signed_transaction [DecidableEq AccountId]
    (env : Env Pub AccountId Sig LocalCall Call SigPay Xt)
    (signer : Signer Pub) (f : Account Pub AccountId → LocalCall)
    (st : State AccountId D) :
    Option (Account Pub AccountId × TxResult) × State AccountId D :=
  for_any env signer
    (fun account s => submit_signed_transaction env account (f account) s) st

/-- `SendSignedTransaction for Signer<T, ForAll>::send_signed_transaction`. -/
def ForAll.send_signed_transaction [DecidableEq AccountId]
    (env : Env Pub AccountId Sig LocalCall Call SigPay Xt)
    (signer : Signer Pub) (f : Account Pub AccountId → LocalCall)
    (st : State AccountId D) :
    List (Account Pub AccountId × TxResult) × State AccountId D :=
  for_all env signer
    (fun account s => submit_signed_transaction env account (f account) s) st

/-- The required surface of `SignedPayload<T>`: a deterministic encoding
and the public key that must sign it. -/
structure PayloadOps (Pub Sig P : Type) where
  encode : P → List Nat
  public : P → Pub

/-- `SignedPayload::sign` (trait default): sign the payload's encoding
under its declared public key via the key-holder. -/
def SignedPayload.sign (env : Env Pub AccountId Sig LocalCall Call SigPay Xt)
    (ops : PayloadOps Pub Sig P) (payload : P) : Option Sig :=
  env.raSign (ops.public payload) (ops.encode payload)

/-- `SignedPayload::verify` (trait default): recompute the encoding and ask
the key-holder's verification routine. -/
def SignedPayload.verify (env : Env Pub AccountId Sig LocalCall Call SigPay Xt)
    (ops : PayloadOps Pub Sig P) (payload : P) (signature : Sig) : Bool :=
  env.raVerify (ops.public payload) (ops.encode payload) signature

/-- `SendUnsignedTransaction::submit_unsigned_transaction` (trait default):
always wraps the hand-off outcome in `Some`. -/
def submit_unsigned_transaction
    (env : Env Pub AccountId Sig LocalCall Call SigPay Xt)
    (call : LocalCall) : Option TxResult :=
  some (submit_unsigned_call env (env.intoCall call))

/-- `SendUnsignedTransaction for Signer<T, ForAny>::send_unsigned_transaction`:
build the payload, sign it (`?` — failure yields no result for the account),
combine payload and signature into a call and submit it unsigned.  No
storage access occurs, so the threaded state is returned untouched by the
per-account operation. -/
def ForAny.send_unsigned_transaction
    (env : Env Pub AccountId Sig LocalCall Call SigPay Xt)
    (ops : PayloadOps Pub Sig P) (signer : Signer Pub)
    (f : Account Pub AccountId → P) (f2 : P → Sig → LocalCall)
    (st : State AccountId D) :
    Option (Account Pub AccountId × TxResult) × State AccountId D :=
  for_any env signer
    (fun account s =>
      let payload := f account
      match SignedPayload.sign env ops payload with
      | none => (none, s)
      | some signature =>
        (submit_unsigned_transaction env (f2 payload signature), s)) st

/-- `SendUnsignedTransaction for Signer<T, ForAll>::send_unsigned_transaction`. -/
def ForAll.send_unsigned_transaction
    (env : Env Pub AccountId Sig LocalCall Call SigPay Xt)
    (ops : PayloadOps Pub Sig P) (signer : Signer Pub)
    (f : Account Pub AccountId → P) (f2 : P → Sig → LocalCall)
    (st : State AccountId D) :
    List (Account Pub AccountId × TxResult) × State AccountId D :=
  for_all env signer
    (fun account s =>
      let payload := f account
      match SignedPayload.sign env ops payload with
      | none => (none, s)
      | some signature =>
        (submit_unsigned_transaction env (f2 payload signature), s)) st

/-- One signed-submission invocation after another for a fixed account:
runs `submit_signed_transaction` on each call of the list in order,
recording for each attempt the nonce that was read from the store at that
point together with the attempt's outcome. -/
def runSigned [DecidableEq AccountId]
    (env : Env Pub AccountId Sig LocalCall Call SigPay Xt)
    (account : Account Pub AccountId) :
    List LocalCall → State AccountId D →
      List (Nat × Option TxResult) × State AccountId D
  | [], st => ([], st)
  | c :: cs, st =>
    let n := (st.get account.id).nonce
    let rs := submit_signed_transaction env account c st
    let rest := runSigned env account cs rs.2
    ((n, rs.1) :: rest.1, rest.2)

/-- `n`-fold iteration of the unsigned `ForAny` submission path starting
from a given store. -/
def iterUnsignedAny (env : Env Pub AccountId Sig LocalCall Call SigPay Xt)
    (ops : PayloadOps Pub Sig P) (signer : Signer Pub)
    (f : Account Pub AccountId → P) (f2 : P → Sig → LocalCall) :
    Nat → State AccountId D → State AccountId D
  | 0, st => st
  | n + 1, st =>
    iterUnsignedAny env ops signer f f2 n
      (ForAny.send_unsigned_transaction env ops signer f f2 st).2

/-! Concrete instantiations used to exercise the definitions on closed
inputs.  All type parameters are `Nat` (signatures are `List Nat` where a
payload-injective scheme is wanted) and the external collaborators are
simple computable functions. -/

/-- A benign world: one registered key, construction always succeeds, the
inclusion queue always accepts. -/
def envOk : Env Nat Nat Nat Nat Nat Nat Nat :=
  ⟨[0], id, fun _ _ => some 0, fun _ _ _ => true, id,
   fun c _ _ _ => some (c, 0), fun c _ => some c, fun x => [x], fun _ => TxResult.ok⟩

/-- Two registered keys `0` and `1`; the queue accepts only the extrinsic
built from key `1`'s call, so key `0`'s hand-off fails. -/
def envRejectFirst : Env Nat Nat Nat Nat Nat Nat Nat :=
  ⟨[0, 1], id, fun _ _ => some 0, fun _ _ _ => true, id,
   fun c _ _ _ => some (c, 0), fun c _ => some c, fun x => [x],
   fun b => if b = [1] then TxResult.ok else TxResult.err⟩

/-- Three keys `0`, `1`, `2`; only key `1` can sign. -/
def envOnlyKeyOne : Env Nat Nat Nat Nat Nat Nat Nat :=
  ⟨[0, 1, 2], id, fun p _ => if p = 1 then some 99 else none,
   fun _ _ _ => true, id, fun c _ _ _ => some (c, 0), fun c _ => some c,
   fun x => [x], fun _ => TxResult.ok⟩

/-- Three keys; every key signs, and verification checks the signature
against the key and the message length. -/
def envAllSign : Env Nat Nat Nat Nat Nat Nat Nat :=
  ⟨[10, 20, 30], id, fun p m => some (p + m.length),
   fun p m s => decide (s = p + m.length), id, fun c _ _ _ => some (c, 0),
   fun c _ => some c, fun x => [x], fun _ => TxResult.ok⟩

/-- The transaction-construction hook always declines. -/
def envDecline : Env Nat Nat Nat Nat Nat Nat Nat :=
  ⟨[0, 1], id, fun _ _ => some 0, fun _ _ _ => true, id,
   fun _ _ _ _ => none, fun c _ => some c, fun x => [x], fun _ => TxResult.ok⟩

/-- A signature scheme whose signature is the signed byte string itself and
whose verification compares it with the payload being checked; signatures
are `List Nat`. -/
def envEcho : Env Nat Nat (List Nat) Nat Nat Nat Nat :=
  ⟨[0], id, fun _ m => some m, fun _ m s => decide (s = m), id,
   fun c _ _ _ => some (c, 0), fun c _ => some c, fun x => [x],
   fun _ => TxResult.ok⟩

/-- Only key `1` can sign; the inclusion queue rejects everything. -/
def envSignOneRejectAll : Env Nat Nat Nat Nat Nat Nat Nat :=
  ⟨[0, 1, 2], id, fun p _ => if p = 1 then some 5 else none,
   fun _ _ _ => true, id, fun c _ _ _ => some (c, 0), fun c _ => some c,
   fun x => [x], fun _ => TxResult.err⟩

/-- The store that assigns every account the nonce `0` and trivial data. -/
def st0 : State Nat Unit := fun _ => ⟨0, ()⟩

/-- A payload carrying one byte, always owned by key `7`. -/
def opsConst7 : PayloadOps Nat (List Nat) Nat := ⟨fun n => [n], fun _ => 7⟩

/-- A payload carrying one byte, owned by the key equal to the payload. -/
def opsSelf : PayloadOps Nat Nat Nat := ⟨fun n => [n], id⟩

section Lemmas

variable (env : Env Pub AccountId Sig LocalCall Call SigPay Xt)

theorem State.get_insert_self [DecidableEq AccountId]
    (st : State AccountId D) (i : AccountId) (v : AccountData D) :
    (st.insert i v).get i = v := by
  simp [State.insert, State.get]

theorem State.get_insert_ne [DecidableEq AccountId]
    (st : State AccountId D) (i j : AccountId) (v : AccountData D)
    (h : j ≠ i) : (st.insert i v).get j = st.get j := by
  simp [State.insert, State.get, h]

/-- If the hand-off succeeded, the stored record of the account is replaced
by one whose nonce is one larger, everything else intact. -/
theorem submit_signed_ok [DecidableEq AccountId]
    (account : Account Pub AccountId) (call : LocalCall)
    (st : State AccountId D)
    (h : (submit_signed_transaction env account call st).1 = some TxResult.ok) :
    (submit_signed_transaction env account call st).2
      = st.insert account.id
          ⟨(st.get account.id).nonce + 1, (st.get account.id).data⟩ := by
  unfold submit_signed_transaction at h ⊢
  rcases hc : env.create_transaction (env.intoCall call) account.public
      account.id ((st.get account.id).nonce) with _ | ⟨c2, sg⟩ <;>
    simp [hc] at h ⊢
  rcases hr : submit_transaction env c2 (some sg) with _ | _ <;> simp [hr] at h ⊢

/-- If the outcome was anything but a successful hand-off, the store is
left untouched. -/
theorem submit_signed_not_ok [DecidableEq AccountId]
    (account : Account Pub AccountId) (call : LocalCall)
    (st : State AccountId D)
    (h : (submit_signed_transaction env account call st).1 ≠ some TxResult.ok) :
    (submit_signed_transaction env account call st).2 = st := by
  unfold submit_signed_transaction at h ⊢
  rcases hc : env.create_transaction (env.intoCall call) account.public
      account.id ((st.get account.id).nonce) with _ | ⟨c2, sg⟩ <;>
    simp [hc] at h ⊢
  rcases hr : submit_transaction env c2 (some sg) with _ | _ <;> simp [hr] at h ⊢

/-- A state-independent per-account operation makes `forAnyKeys` a pure
scan: the first component does not depend on the threaded state and the
state comes back unchanged. -/
theorem forAnyKeys_pure (g : Account Pub AccountId → Option R)
    (f : Account Pub AccountId → σ → Option R × σ)
    (hf : ∀ a s, f a s = (g a, s)) :
    ∀ (l : List Pub) (i : Nat) (s s' : σ),
      (forAnyKeys env f l i s).2 = s ∧
      (forAnyKeys env f l i s).1 = (forAnyKeys env f l i s').1 := by
  intro l
  induction l with
  | nil => intro i s s'; simp [forAnyKeys]
  | cons k rest ih =>
    intro i s s'
    simp only [forAnyKeys, hf]
    rcases g (mkAccount env i k) with _ | r
    · simpa using ih (i + 1) s s'
    · simp

/-- A state-independent per-account operation makes `forAllKeys` a pure
scan as well. -/
theorem forAllKeys_pure (g : Account Pub AccountId → Option R)
    (f : Account Pub AccountId → σ → Option R × σ)
    (hf : ∀ a s, f a s = (g a, s)) :
    ∀ (l : List Pub) (i : Nat) (s s' : σ),
      (forAllKeys env f l i s).2 = s ∧
      (forAllKeys env f l i s).1 = (forAllKeys env f l i s').1 := by
  intro l
  induction l with
  | nil => intro i s s'; simp [forAllKeys]
  | cons k rest ih =>
    intro i s s'
    simp only [forAllKeys, hf]
    rcases g (mkAccount env i k) with _ | r
    · simpa using ih (i + 1) s s'
    · simpa using ih (i + 1) s s'

/-- Characterisation of the pure `forAllKeys` scan as a `filterMap` over
the enumerated key list. -/
theorem forAllKeys_eq_filterMap (g : Account Pub AccountId → Option R)
    (f : Account Pub AccountId → σ → Option R × σ)
    (hf : ∀ a s, f a s = (g a, s)) :
    ∀ (l : List Pub) (i : Nat) (s : σ),
      (forAllKeys env f l i s).1
        = (l.enumFrom i).filterMap (fun p =>
            (g (mkAccount env p.1 p.2)).map fun r => (mkAccount env p.1 p.2, r)) := by
  intro l
  induction l with
  | nil => intro i s; simp [forAllKeys]
  | cons k rest ih =>
    intro i s
    simp only [forAllKeys, hf, List.enumFrom, List.filterMap_cons]
    rcases g (mkAccount env i k) with _ | r
    · simpa using ih (i + 1) s
    · simpa using ih (i + 1) s

/-- Auxiliary induction for the nonce sequence: when every recorded
attempt succeeded, the recorded nonces are consecutive from the starting
value and the final stored nonce advanced by the number of attempts. -/
theorem runSigned_all_ok [DecidableEq AccountId]
    (env : Env Pub AccountId Sig LocalCall Call SigPay Xt)
    (account : Account Pub AccountId) :
    ∀ (cs : List LocalCall) (st : State AccountId D),
      (∀ p ∈ (runSigned env account cs st).1, p.2 = some TxResult.ok) →
      (runSigned env account cs st).1.map Prod.fst
          = List.range' ((st.get account.id).nonce) cs.length ∧
      ((runSigned env account cs st).2.get account.id).nonce
          = (st.get account.id).nonce + cs.length := by
  intro cs
  induction cs with
  | nil => intro st _; simp [runSigned]
  | cons c cs ih =>
    intro st h
    simp only [runSigned, List.mem_cons, forall_eq_or_imp] at h
    obtain ⟨h1, h2⟩ := h
    have hst2 : (submit_signed_transaction env account c st).2
        = st.insert account.id
            ⟨(st.get account.id).nonce + 1, (st.get account.id).data⟩ :=
      submit_signed_ok env account c st h1
    have ihh := ih ((submit_signed_transaction env account c st).2) h2
    rw [hst2, State.get_insert_self] at ihh
    simp only [runSigned, List.map_cons, List.length_cons, List.range'_succ]
    rw [hst2]
    refine ⟨?_, ?_⟩
    · rw [ihh.1]
    · rw [ihh.2]
      show (st.get account.id).nonce + 1 + cs.length
          = (st.get account.id).nonce + (cs.length + 1)
      omega

/-- When the transaction-construction hook declines everything, one signed
submission yields no result and leaves the store untouched. -/
theorem submit_signed_decline [DecidableEq AccountId]
    (account : Account Pub AccountId) (call : LocalCall)
    (st : State AccountId D)
    (h : ∀ c p a n, env.create_transaction c p a n = none) :
    submit_signed_transaction env account call st = (none, st) := by
  simp only [submit_signed_transaction, h]

/-- A per-account operation that always yields no result makes `forAnyKeys`
return nothing with the state unchanged. -/
theorem forAnyKeys_const_none (f : Account Pub AccountId → σ → Option R × σ)
    (hf : ∀ a s, f a s = (none, s)) :
    ∀ (l : List Pub) (i : Nat) (s : σ), forAnyKeys env f l i s = (none, s) := by
  intro l
  induction l with
  | nil => intro i s; simp [forAnyKeys]
  | cons k rest ih => intro i s; simp only [forAnyKeys, hf]; exact ih (i + 1) s

/-- A per-account operation that always yields no result makes `forAllKeys`
return the empty list with the state unchanged. -/
theorem forAllKeys_const_none (f : Account Pub AccountId → σ → Option R × σ)
    (hf : ∀ a s, f a s = (none, s)) :
    ∀ (l : List Pub) (i : Nat) (s : σ), forAllKeys env f l i s = ([], s) := by
  intro l
  induction l with
  | nil => intro i s; simp [forAllKeys]
  | cons k rest ih => intro i s; simp only [forAllKeys, hf]; exact ih (i + 1) s

/-- `for_any` with a state-independent operation: unchanged state,
state-independent result. -/
theorem for_any_pure (g : Account Pub AccountId → Option R)
    (f : Account Pub AccountId → σ → Option R × σ)
    (hf : ∀ a s, f a s = (g a, s)) (signer : Signer Pub) (s s' : σ) :
    (for_any env signer f s).2 = s ∧
    (for_any env signer f s).1 = (for_any env signer f s').1 := by
  cases signer with
  | none => exact forAnyKeys_pure env g f hf env.allKeys 0 s s'
  | some accounts => exact forAnyKeys_pure env g f hf accounts 0 s s'

/-- `for_all` with a state-independent operation: unchanged state,
state-independent result. -/
theorem for_all_pure (g : Account Pub AccountId → Option R)
    (f : Account Pub AccountId → σ → Option R × σ)
    (hf : ∀ a s, f a s = (g a, s)) (signer : Signer Pub) (s s' : σ) :
    (for_all env signer f s).2 = s ∧
    (for_all env signer f s).1 = (for_all env signer f s').1 := by
  cases signer with
  | none => exact forAllKeys_pure env g f hf env.allKeys 0 s s'
  | some accounts => exact forAllKeys_pure env g f hf accounts 0 s s'

/-- Every pair produced by the `forAllKeys` loop carries a public key from
the enumerated list. -/
theorem forAllKeys_public_mem (f : Account Pub AccountId → σ → Option R × σ) :
    ∀ (l : List Pub) (i : Nat) (s : σ)
      (pr : Account Pub AccountId × R),
      pr ∈ (forAllKeys env f l i s).1 → pr.1.public ∈ l := by
  intro l
  induction l with
  | nil => intro i s pr h; simp [forAllKeys] at h
  | cons k rest ih =>
    intro i s pr h
    simp only [forAllKeys] at h
    rcases hr : (f (mkAccount env i k) s).1 with _ | r
    · rw [hr] at h
      exact List.mem_cons_of_mem _ (ih (i + 1) _ pr h)
    · rw [hr] at h
      rcases List.mem_cons.mp h with h | h
      · subst h; exact List.mem_cons_self _ _
      · exact List.mem_cons_of_mem _ (ih (i + 1) _ pr h)

/-- The public keys of the pairs produced by `forAllKeys`, in order, form
a sublist of the enumerated list. -/
theorem forAllKeys_public_sublist
    (f : Account Pub AccountId → σ → Option R × σ) :
    ∀ (l : List Pub) (i : Nat) (s : σ),
      ((forAllKeys env f l i s).1.map fun pr => pr.1.public).Sublist l := by
  intro l
  induction l with
  | nil => intro i s; simp [forAllKeys]
  | cons k rest ih =>
    intro i s
    simp only [forAllKeys]
    rcases hr : (f (mkAccount env i k) s).1 with _ | r
    · exact (ih (i + 1) _).cons k
    · exact (ih (i + 1) _).cons₂ k

/-- When the per-account operation always yields a result, `forAllKeys`
produces one pair per enumerated key, in order. -/
theorem forAllKeys_public_total
    (f : Account Pub AccountId → σ → Option R × σ)
    (hf : ∀ a s, ((f a s).1).isSome = true) :
    ∀ (l : List Pub) (i : Nat) (s : σ),
      (forAllKeys env f l i s).1.map (fun pr => pr.1.public) = l := by
  intro l
  induction l with
  | nil => intro i s; simp [forAllKeys]
  | cons k rest ih =>
    intro i s
    simp only [forAllKeys]
    rcases hr : (f (mkAccount env i k) s).1 with _ | r
    · exact absurd (hf (mkAccount env i k) s) (by simp [hr])
    · exact congrArg (List.cons k) (ih (i + 1) ((f (mkAccount env i k) s).2))

/-- A successful `forAnyKeys` pair carries a public key from the
enumerated list. -/
theorem forAnyKeys_public_mem (f : Account Pub AccountId → σ → Option R × σ) :
    ∀ (l : List Pub) (i : Nat) (s s' : σ) (a : Account Pub AccountId) (r : R),
      forAnyKeys env f l i s = (some (a, r), s') → a.public ∈ l := by
  intro l
  induction l with
  | nil => intro i s s' a r h; simp [forAnyKeys] at h
  | cons k rest ih =>
    intro i s s' a r h
    simp only [forAnyKeys] at h
    rcases hr : (f (mkAccount env i k) s).1 with _ | r2
    · rw [hr] at h
      exact List.mem_cons_of_mem _ (ih (i + 1) _ s' a r h)
    · rw [hr] at h
      simp only [Prod.mk.injEq, Option.some.injEq] at h
      rcases h with ⟨⟨ha, _⟩, _⟩
      subst ha
      exact List.mem_cons_self _ _

end Lemmas

section Claims

/-- C1: within one invocation, the nonce stored for an account is read
before each signed transaction is built and is incremented by exactly one
and written back if and only if the hand-off returns `Ok`; across `N`
successful signed submissions the nonces passed to `create_transaction`
are exactly `start, start+1, …, start+N-1`, and a failed hand-off leaves
the stored nonce (and the rest of the store) unchanged. -/
theorem claim_nonce_monotonicity [DecidableEq AccountId]
    (env : Env Pub AccountId Sig LocalCall Call SigPay Xt)
    (account : Account Pub AccountId) (cs : List LocalCall)
    (st : State AccountId D) (c : LocalCall)
    (h : ∀ p ∈ (runSigned env account cs st).1, p.2 = some TxResult.ok) :
    (runSigned env account cs st).1.map Prod.fst
        = List.range' ((st.get account.id).nonce) cs.length
    ∧ ((runSigned env account cs st).2.get account.id).nonce
        = (st.get account.id).nonce + cs.length
    ∧ ((submit_signed_transaction env account c st).1 = some TxResult.ok →
        (submit_signed_transaction env account c st).2
          = st.insert account.id
              ⟨(st.get account.id).nonce + 1, (st.get account.id).data⟩)
    ∧ ((submit_signed_transaction env account c st).1 ≠ some TxResult.ok →
        (submit_signed_transaction env account c st).2 = st) := by
  obtain ⟨hseq, hfin⟩ := runSigned_all_ok env account cs st h
  exact ⟨hseq, hfin,
    fun hok => submit_signed_ok env account c st hok,
    fun hko => submit_signed_not_ok env account c st hko⟩

/-- Witness for C1: three submissions from nonce `0` in the benign world
record nonces `0, 1, 2` and leave the stored nonce at `3`. -/
theorem claim_nonce_monotonicity_witness :
    (runSigned envOk ⟨0, 0, 0⟩ [41, 42, 43] st0).1.map Prod.fst
        = List.range' ((st0.get 0).nonce) 3
    ∧ ((runSigned envOk ⟨0, 0, 0⟩ [41, 42, 43] st0).2.get 0).nonce
        = (st0.get 0).nonce + 3
    ∧ ((submit_signed_transaction envOk ⟨0, 0, 0⟩ 44 st0).1 = some TxResult.ok →
        (submit_signed_transaction envOk ⟨0, 0, 0⟩ 44 st0).2
          = st0.insert 0 ⟨(st0.get 0).nonce + 1, (st0.get 0).data⟩)
    ∧ ((submit_signed_transaction envOk ⟨0, 0, 0⟩ 44 st0).1 ≠ some TxResult.ok →
        (submit_signed_transaction envOk ⟨0, 0, 0⟩ 44 st0).2 = st0) :=
  claim_nonce_monotonicity envOk ⟨0, 0, 0⟩ [41, 42, 43] st0 44 (by decide)

/-- C2, counterexample: with keys `[0, 1]`, key `0`'s hand-off fails and
key `1`'s would succeed, yet the `ForAny` signed pass returns the
`(account 0, Err)` pair — it aborts at the hand-off failure instead of
continuing until an account succeeds. -/
theorem claim_forany_failure_local_counterexample :
    (ForAny.send_signed_transaction envRejectFirst Signer.default
        (fun a => a.public) st0).1 = some (⟨0, 0, 0⟩, TxResult.err)
    ∧ (submit_signed_transaction envRejectFirst ⟨1, 1, 1⟩ 1 st0).1
        = some TxResult.ok := by
  constructor <;> decide

/-- C2, amended: in a `ForAny` signed pass, an account whose attempt
yields an explicit outcome — `Ok` or the hand-off failure `Err` —
short-circuits the pass, which returns that `(account, outcome)` pair;
only an attempt that yields no result (declined construction) is local to
its account, and then processing continues with the remaining accounts
with the store unchanged. -/
theorem claim_forany_failure_shortcircuits [DecidableEq AccountId]
    (env : Env Pub AccountId Sig LocalCall Call SigPay Xt)
    (f : Account Pub AccountId → LocalCall) (k : Pub) (rest : List Pub)
    (i : Nat) (st : State AccountId D) :
    (∀ r, (submit_signed_transaction env (mkAccount env i k)
          (f (mkAccount env i k)) st).1 = some r →
        forAnyKeys env (fun a s => submit_signed_transaction env a (f a) s)
            (k :: rest) i st
          = (some (mkAccount env i k, r),
             (submit_signed_transaction env (mkAccount env i k)
               (f (mkAccount env i k)) st).2))
    ∧ ((submit_signed_transaction env (mkAccount env i k)
          (f (mkAccount env i k)) st).1 = none →
        forAnyKeys env (fun a s => submit_signed_transaction env a (f a) s)
            (k :: rest) i st
          = forAnyKeys env (fun a s => submit_signed_transaction env a (f a) s)
              rest (i + 1) st) := by
  constructor
  · intro r hr
    simp only [forAnyKeys, hr]
  · intro hn
    have hst : (submit_signed_transaction env (mkAccount env i k)
        (f (mkAccount env i k)) st).2 = st :=
      submit_signed_not_ok env (mkAccount env i k) (f (mkAccount env i k)) st
        (by simp [hn])
    simp only [forAnyKeys, hn, hst]

/-- Witness for the amended C2: in the two-key world the failing hand-off
of key `0` is returned directly, short-circuiting key `1`. -/
theorem claim_forany_failure_shortcircuits_witness :
    forAnyKeys envRejectFirst
        (fun a s => submit_signed_transaction envRejectFirst a a.public s)
        [0, 1] 0 st0
      = (some (mkAccount envRejectFirst 0 0, TxResult.err),
         (submit_signed_transaction envRejectFirst (mkAccount envRejectFirst 0 0)
           (mkAccount envRejectFirst 0 0).public st0).2) :=
  (claim_forany_failure_shortcircuits envRejectFirst (fun a => a.public)
    0 [1] 0 st0).1 TxResult.err (by decide)

/-- C3: for `ForAny` over accounts `[A, B, C]` where `A` fails to sign and
`B` signs, `sign_message` returns exactly the `(B, signature)` pair with
`B` at selection index 1; the invocation log of the underlying `for_any`
pass is exactly `[A, B]`, so `C` is never attempted; and if no enumerated
account signs, the result is nothing. -/
theorem claim_forany_shortcircuit
    (env : Env Pub AccountId Sig LocalCall Call SigPay Xt)
    (A B C : Pub) (msg : List Nat) (sigB : Sig)
    (hA : env.raSign A msg = none)
    (hB : env.raSign B msg = some sigB) :
    ForAny.sign_message env (Signer.with_filter Signer.default [A, B, C]) msg
        = some (⟨1, env.into_account B, B⟩, sigB)
    ∧ (for_any env (Signer.with_filter Signer.default [A, B, C])
          (fun a (log : List Pub) =>
            (SigningTypes.sign env msg a.public, log ++ [a.public])) []).2
        = [A, B]
    ∧ (∀ l : List Pub, (∀ k ∈ l, env.raSign k msg = none) →
        ForAny.sign_message env (Signer.with_filter Signer.default l) msg
          = none) := by
  refine ⟨?_, ?_, ?_⟩
  · simp [ForAny.sign_message, for_any, Signer.with_filter, Signer.default,
      forAnyKeys, SigningTypes.sign, mkAccount, hA, hB]
  · simp [for_any, Signer.with_filter, Signer.default, forAnyKeys,
      SigningTypes.sign, mkAccount, hA, hB]
  · intro l hl
    have aux : ∀ (l2 : List Pub) (i : Nat),
        (∀ k ∈ l2, env.raSign k msg = none) →
        (forAnyKeys env
          (fun a (u : Unit) => (SigningTypes.sign env msg a.public, u))
          l2 i ()).1 = none := by
      intro l2
      induction l2 with
      | nil => intro i _; simp [forAnyKeys]
      | cons k rest ih =>
        intro i hk
        simp only [forAnyKeys, SigningTypes.sign, mkAccount,
          hk k (List.mem_cons_self k rest)]
        exact ih (i + 1) fun k2 hk2 => hk k2 (List.mem_cons_of_mem _ hk2)
    exact aux l 0 hl

/-- Witness for C3: keys `[0, 1, 2]`, only key `1` signs. -/
theorem claim_forany_shortcircuit_witness :
    ForAny.sign_message envOnlyKeyOne
        (Signer.with_filter Signer.default [0, 1, 2]) []
        = some (⟨1, envOnlyKeyOne.into_account 1, 1⟩, 99)
    ∧ (for_any envOnlyKeyOne (Signer.with_filter Signer.default [0, 1, 2])
          (fun a (log : List Nat) =>
            (SigningTypes.sign envOnlyKeyOne [] a.public, log ++ [a.public]))
          []).2
        = [0, 1]
    ∧ (∀ l : List Nat, (∀ k ∈ l, envOnlyKeyOne.raSign k [] = none) →
        ForAny.sign_message envOnlyKeyOne
            (Signer.with_filter Signer.default l) [] = none) :=
  claim_forany_shortcircuit envOnlyKeyOne 0 1 2 [] 99 (by decide) (by decide)

/-- C10: an empty `with_filter` list restricts the selection to no
accounts at all: every `ForAll` pass returns the empty sequence and every
`ForAny` pass returns nothing with the state untouched, whatever keys the
key-holder has registered — there is no fall-back to enumerating the
key-holder. -/
theorem claim_empty_filter
    (env : Env Pub AccountId Sig LocalCall Call SigPay Xt)
    (signer : Signer Pub)
    (f g : Account Pub AccountId → σ → Option R × σ) (s : σ) :
    for_all env (Signer.with_filter signer []) f s = ([], s)
    ∧ for_any env (Signer.with_filter signer []) g s = (none, s)
    ∧ (∀ keys, for_all (env.withAllKeys keys)
        (Signer.with_filter signer []) f s = ([], s))
    ∧ (∀ keys, for_any (env.withAllKeys keys)
        (Signer.with_filter signer []) g s = (none, s)) :=
  ⟨rfl, rfl, fun _ => rfl, fun _ => rfl⟩

/-- C4: when every registered key signs the message, the `ForAll` pass
returns one `(account, signature)` pair per registered key, in enumeration
order, and each signature verifies against the original message under that
account's public key (given that the key-holder's sign/verify pair is
correct); in general, keys whose signing yields no result are silently
omitted from the returned sequence. -/
theorem claim_forall_completeness
    (env : Env Pub AccountId Sig LocalCall Call SigPay Xt)
    (msg : List Nat) (sigf : Pub → Sig)
    (hsig : ∀ k ∈ env.allKeys, env.raSign k msg = some (sigf k))
    (hver : ∀ k m s, env.raSign k m = some s → env.raVerify k m s = true) :
    ForAll.sign_message env Signer.default msg
        = env.allKeys.enum.map (fun p => (mkAccount env p.1 p.2, sigf p.2))
    ∧ (ForAll.sign_message env Signer.default msg).length
        = env.allKeys.length
    ∧ (∀ pr ∈ ForAll.sign_message env Signer.default msg,
        env.raVerify pr.1.public msg pr.2 = true)
    ∧ (∀ l : List Pub,
        ForAll.sign_message env (Signer.with_filter Signer.default l) msg
          = l.enum.filterMap (fun p =>
              (env.raSign p.2 msg).map fun s => (mkAccount env p.1 p.2, s))) := by
  have aux1 : ∀ (l : List Pub) (i : Nat),
      (∀ k ∈ l, env.raSign k msg = some (sigf k)) →
      (forAllKeys env
          (fun a (u : Unit) => (SigningTypes.sign env msg a.public, u))
          l i ()).1
        = (l.enumFrom i).map (fun p => (mkAccount env p.1 p.2, sigf p.2)) := by
    intro l
    induction l with
    | nil => intro i _; simp [forAllKeys]
    | cons k rest ih =>
      intro i hk
      simp only [forAllKeys, SigningTypes.sign, mkAccount,
        hk k (List.mem_cons_self k rest), List.enumFrom, List.map_cons]
      exact congrArg _ (ih (i + 1) fun k2 hk2 => hk k2 (List.mem_cons_of_mem _ hk2))
  have aux2 : ∀ (l : List Pub) (i : Nat),
      (∀ k ∈ l, env.raSign k msg = some (sigf k)) →
      ∀ pr ∈ (forAllKeys env
          (fun a (u : Unit) => (SigningTypes.sign env msg a.public, u))
          l i ()).1,
        env.raVerify pr.1.public msg pr.2 = true := by
    intro l
    induction l with
    | nil => intro i _ pr h; simp [forAllKeys] at h
    | cons k rest ih =>
      intro i hk pr h
      simp only [forAllKeys, SigningTypes.sign, mkAccount,
        hk k (List.mem_cons_self k rest)] at h
      rcases List.mem_cons.mp h with h | h
      · subst h
        exact hver k msg (sigf k) (hk k (List.mem_cons_self k rest))
      · exact ih (i + 1) (fun k2 hk2 => hk k2 (List.mem_cons_of_mem _ hk2)) pr h
  refine ⟨aux1 env.allKeys 0 hsig, ?_, aux2 env.allKeys 0 hsig, ?_⟩
  · rw [show ForAll.sign_message env Signer.default msg
        = (forAllKeys env
            (fun a (u : Unit) => (SigningTypes.sign env msg a.public, u))
            env.allKeys 0 ()).1 from rfl, aux1 env.allKeys 0 hsig]
    simp
  · intro l
    exact forAllKeys_eq_filterMap env
      (fun a => env.raSign a.public msg)
      (fun a (u : Unit) => (SigningTypes.sign env msg a.public, u))
      (fun a s => rfl) l 0 ()

/-- Witness for C4: three keys, everyone signs, every signature checks. -/
theorem claim_forall_completeness_witness :
    ForAll.sign_message envAllSign Signer.default [9]
        = envAllSign.allKeys.enum.map
            (fun p => (mkAccount envAllSign p.1 p.2, p.2 + 1))
    ∧ (ForAll.sign_message envAllSign Signer.default [9]).length
        = envAllSign.allKeys.length
    ∧ (∀ pr ∈ ForAll.sign_message envAllSign Signer.default [9],
        envAllSign.raVerify pr.1.public [9] pr.2 = true)
    ∧ (∀ l : List Nat,
        ForAll.sign_message envAllSign (Signer.with_filter Signer.default l) [9]
          = l.enum.filterMap (fun p =>
              (envAllSign.raSign p.2 [9]).map fun s => (mkAccount envAllSign p.1 p.2, s))) :=
  claim_forall_completeness envAllSign [9] (fun k => k + 1) (by decide)
    (by
      intro k m s h
      simp only [envAllSign] at h ⊢
      injection h with h
      subst h
      simp)

/-- C5: when the transaction-construction hook declines every input, the
signed submission path yields nothing for `ForAny` and the empty sequence
for `ForAll`, leaves the whole account store untouched, and never reaches
the inclusion queue — the outcome is the same whatever the queue would
answer. -/
theorem claim_declined_construction [DecidableEq AccountId]
    (env : Env Pub AccountId Sig LocalCall Call SigPay Xt)
    (signer : Signer Pub) (f g : Account Pub AccountId → LocalCall)
    (st : State AccountId D)
    (h : ∀ c p a n, env.create_transaction c p a n = none) :
    ForAny.send_signed_transaction env signer f st = (none, st)
    ∧ ForAll.send_signed_transaction env signer g st = ([], st)
    ∧ (∀ q, ForAny.send_signed_transaction (env.withPoolSubmit q) signer f st
        = (none, st))
    ∧ (∀ q, ForAll.send_signed_transaction (env.withPoolSubmit q) signer g st
        = ([], st)) := by
  have hany : ∀ (env2 : Env Pub AccountId Sig LocalCall Call SigPay Xt),
      (∀ c p a n, env2.create_transaction c p a n = none) →
      ForAny.send_signed_transaction env2 signer f st = (none, st) := by
    intro env2 h2
    unfold ForAny.send_signed_transaction for_any
    cases signer with
    | none =>
      exact forAnyKeys_const_none env2 _
        (fun a s => submit_signed_decline env2 a (f a) s h2) env2.allKeys 0 st
    | some accounts =>
      exact forAnyKeys_const_none env2 _
        (fun a s => submit_signed_decline env2 a (f a) s h2) accounts 0 st
  have hall : ∀ (env2 : Env Pub AccountId Sig LocalCall Call SigPay Xt),
      (∀ c p a n, env2.create_transaction c p a n = none) →
      ForAll.send_signed_transaction env2 signer g st = ([], st) := by
    intro env2 h2
    unfold ForAll.send_signed_transaction for_all
    cases signer with
    | none =>
      exact forAllKeys_const_none env2 _
        (fun a s => submit_signed_decline env2 a (g a) s h2) env2.allKeys 0 st
    | some accounts =>
      exact forAllKeys_const_none env2 _
        (fun a s => submit_signed_decline env2 a (g a) s h2) accounts 0 st
  exact ⟨hany env h, hall env h, fun q => hany (env.withPoolSubmit q) h,
    fun q => hall (env.withPoolSubmit q) h⟩

/-- Witness for C5: the always-declining hook produces nothing, whatever
the queue would answer. -/
theorem claim_declined_construction_witness :
    ForAny.send_signed_transaction envDecline Signer.default
        (fun a => a.public) st0 = (none, st0)
    ∧ ForAll.send_signed_transaction envDecline Signer.default
        (fun a => a.public) st0 = ([], st0)
    ∧ (∀ q, ForAny.send_signed_transaction (envDecline.withPoolSubmit q)
        Signer.default (fun a => a.public) st0 = (none, st0))
    ∧ (∀ q, ForAll.send_signed_transaction (envDecline.withPoolSubmit q)
        Signer.default (fun a => a.public) st0 = ([], st0)) :=
  claim_declined_construction envDecline Signer.default
    (fun a => a.public) (fun a => a.public) st0 (fun _ _ _ _ => rfl)

/-- C6: with an explicit filter, every pair produced by any selector
operation carries a key from the filter list — never a key `B` outside it,
even one registered with the key-holder; the produced keys form a sublist
of the filter list (the given order), and when the operation succeeds for
every account they are exactly the filter list. -/
theorem claim_filter_restriction
    (env : Env Pub AccountId Sig LocalCall Call SigPay Xt)
    (signer : Signer Pub) (l : List Pub) (B : Pub)
    (f g : Account Pub AccountId → σ → Option R × σ) (s : σ)
    (hB : B ∉ l) (_hreg : B ∈ env.allKeys) :
    (∀ pr ∈ (for_all env (Signer.with_filter signer l) f s).1,
        pr.1.public ∈ l ∧ pr.1.public ≠ B)
    ∧ (∀ (a : Account Pub AccountId) (r : R) (s' : σ),
        for_any env (Signer.with_filter signer l) g s = (some (a, r), s') →
        a.public ∈ l ∧ a.public ≠ B)
    ∧ ((for_all env (Signer.with_filter signer l) f s).1.map
        fun pr => pr.1.public).Sublist l
    ∧ ((∀ a t, ((f a t).1).isSome = true) →
        (for_all env (Signer.with_filter signer l) f s).1.map
          (fun pr => pr.1.public) = l) := by
  refine ⟨?_, ?_, ?_, ?_⟩
  · intro pr hpr
    have hm : pr.1.public ∈ l := forAllKeys_public_mem env f l 0 s pr hpr
    exact ⟨hm, fun he => hB (he ▸ hm)⟩
  · intro a r s' hres
    have hm : a.public ∈ l := forAnyKeys_public_mem env g l 0 s s' a r hres
    exact ⟨hm, fun he => hB (he ▸ hm)⟩
  · exact forAllKeys_public_sublist env f l 0 s
  · intro htot
    exact forAllKeys_public_total env f htot l 0 s

/-- Witness for C6: filter `[0, 2]` with key `1` registered; the operation
reports each account's own key. -/
theorem claim_filter_restriction_witness :
    (∀ pr ∈ (for_all envOnlyKeyOne
        (Signer.with_filter Signer.default [0, 2])
        (fun a (u : Unit) => (some a.public, u)) ()).1,
        pr.1.public ∈ [0, 2] ∧ pr.1.public ≠ 1)
    ∧ (∀ (a : Account Nat Nat) (r : Nat) (s' : Unit),
        for_any envOnlyKeyOne (Signer.with_filter Signer.default [0, 2])
            (fun a (u : Unit) => (some a.public, u)) () = (some (a, r), s') →
        a.public ∈ [0, 2] ∧ a.public ≠ 1)
    ∧ ((for_all envOnlyKeyOne (Signer.with_filter Signer.default [0, 2])
        (fun a (u : Unit) => (some a.public, u)) ()).1.map
          fun pr => pr.1.public).Sublist [0, 2]
    ∧ ((∀ (a : Account Nat Nat) (t : Unit),
          (((fun a (u : Unit) => (some a.public, u)) a t).1).isSome = true) →
        (for_all envOnlyKeyOne (Signer.with_filter Signer.default [0, 2])
            (fun a (u : Unit) => (some a.public, u)) ()).1.map
          (fun pr => pr.1.public) = [0, 2]) :=
  claim_filter_restriction envOnlyKeyOne Signer.default [0, 2] 1
    (fun a (u : Unit) => (some a.public, u))
    (fun a (u : Unit) => (some a.public, u)) () (by decide) (by decide)

/-- C7: the unsigned-with-signed-payload path never reads or writes the
account store: one submission returns the store unchanged, its result does
not depend on the store at all, and `n` successive submissions leave the
store (hence every account's nonce) exactly as it was. -/
theorem claim_unsigned_nonce_independence
    (env : Env Pub AccountId Sig LocalCall Call SigPay Xt)
    (ops : PayloadOps Pub Sig P) (signer : Signer Pub)
    (f g : Account Pub AccountId → P) (f2 g2 : P → Sig → LocalCall)
    (st st' : State AccountId D) (n : Nat) :
    (ForAny.send_unsigned_transaction env ops signer f f2 st).2 = st
    ∧ (ForAll.send_unsigned_transaction env ops signer g g2 st).2 = st
    ∧ (ForAny.send_unsigned_transaction env ops signer f f2 st).1
        = (ForAny.send_unsigned_transaction env ops signer f f2 st').1
    ∧ (ForAll.send_unsigned_transaction env ops signer g g2 st).1
        = (ForAll.send_unsigned_transaction env ops signer g g2 st').1
    ∧ iterUnsignedAny env ops signer f f2 n st = st := by
  have hfA : ∀ (a : Account Pub AccountId) (s : State AccountId D),
      (match SignedPayload.sign env ops (f a) with
        | none => ((none : Option TxResult), s)
        | some signature => (submit_unsigned_transaction env (f2 (f a) signature), s))
      = ((match SignedPayload.sign env ops (f a) with
          | none => none
          | some signature => submit_unsigned_transaction env (f2 (f a) signature)), s) := by
    intro a s
    rcases h : SignedPayload.sign env ops (f a) with _ | sg <;> rfl
  have hfB : ∀ (a : Account Pub AccountId) (s : State AccountId D),
      (match SignedPayload.sign env ops (g a) with
        | none => ((none : Option TxResult), s)
        | some signature => (submit_unsigned_transaction env (g2 (g a) signature), s))
      = ((match SignedPayload.sign env ops (g a) with
          | none => none
          | some signature => submit_unsigned_transaction env (g2 (g a) signature)), s) := by
    intro a s
    rcases h : SignedPayload.sign env ops (g a) with _ | sg <;> rfl
  have hany := for_any_pure env
    (fun a => match SignedPayload.sign env ops (f a) with
      | none => none
      | some signature => submit_unsigned_transaction env (f2 (f a) signature))
    (fun a s => match SignedPayload.sign env ops (f a) with
      | none => (none, s)
      | some signature => (submit_unsigned_transaction env (f2 (f a) signature), s))
    hfA signer st st'
  have hall := for_all_pure env
    (fun a => match SignedPayload.sign env ops (g a) with
      | none => none
      | some signature => submit_unsigned_transaction env (g2 (g a) signature))
    (fun a s => match SignedPayload.sign env ops (g a) with
      | none => (none, s)
      | some signature => (submit_unsigned_transaction env (g2 (g a) signature), s))
    hfB signer st st'
  refine ⟨hany.1, hall.1, hany.2, hall.2, ?_⟩
  induction n with
  | zero => rfl
  | succ m ih =>
    show iterUnsignedAny env ops signer f f2 m
        (ForAny.send_unsigned_transaction env ops signer f f2 st).2 = st
    have h2 : (ForAny.send_unsigned_transaction env ops signer f f2 st).2 = st :=
      hany.1
    rw [h2]
    exact ih

/-- C8: if a payload signs, the signature verifies against that payload;
and it fails to verify against any payload that declares the same public
key but encodes differently — assuming the key-holder's sign/verify pair
is sound for that key and rejects signatures over different byte strings. -/
theorem claim_payload_roundtrip
    (env : Env Pub AccountId Sig LocalCall Call SigPay Xt)
    (ops : PayloadOps Pub Sig P) (p q : P) (s : Sig)
    (h1 : ∀ m s', env.raSign (ops.public p) m = some s' →
        env.raVerify (ops.public p) m s' = true)
    (h2 : ∀ m m' s', env.raSign (ops.public p) m = some s' → m' ≠ m →
        env.raVerify (ops.public p) m' s' = false)
    (hs : SignedPayload.sign env ops p = some s) :
    SignedPayload.verify env ops p s = true
    ∧ (ops.public q = ops.public p → ops.encode q ≠ ops.encode p →
        SignedPayload.verify env ops q s = false) := by
  constructor
  · exact h1 (ops.encode p) s hs
  · intro hpub hne
    unfold SignedPayload.verify
    rw [hpub]
    exact h2 (ops.encode p) (ops.encode q) s hs hne

/-- Witness for C8: the echo scheme signs the one-byte payload `1`; the
signature verifies against `1` and fails against the payload `2`. -/
theorem claim_payload_roundtrip_witness :
    SignedPayload.verify envEcho opsConst7 1 [1] = true
    ∧ (opsConst7.public 2 = opsConst7.public 1 →
        opsConst7.encode 2 ≠ opsConst7.encode 1 →
        SignedPayload.verify envEcho opsConst7 2 [1] = false) :=
  claim_payload_roundtrip envEcho opsConst7 1 2 [1]
    (by
      intro m s' h
      injection h with h
      subst h
      show decide (m = m) = true
      simp)
    (by
      intro m m' s' h hne
      injection h with h
      subst h
      show decide (m = m') = false
      exact decide_eq_false fun hh => hne hh.symm)
    rfl

/-- C9: `submit_unsigned_transaction` always returns `Some`; hence in the
`ForAny` unsigned path enumeration stops at the first account whose payload
signs, the returned outcome being whatever the inclusion-queue hand-off
answered for that account, and later accounts are never reached. -/
theorem claim_unsigned_always_some
    (env : Env Pub AccountId Sig LocalCall Call SigPay Xt)
    (ops : PayloadOps Pub Sig P)
    (f : Account Pub AccountId → P) (f2 : P → Sig → LocalCall)
    (st : State AccountId D) (l1 : List Pub) (k : Pub) (l2 : List Pub)
    (sigk : Sig)
    (hfail : ∀ k' ∈ l1, ∀ j,
        SignedPayload.sign env ops (f (mkAccount env j k')) = none)
    (hsucc : ∀ j, SignedPayload.sign env ops (f (mkAccount env j k))
        = some sigk) :
    (∀ call, ∃ r, submit_unsigned_transaction env call = some r)
    ∧ ForAny.send_unsigned_transaction env ops
        (Signer.with_filter Signer.default (l1 ++ k :: l2)) f f2 st
      = (some (mkAccount env l1.length k,
          submit_unsigned_call env
            (env.intoCall (f2 (f (mkAccount env l1.length k)) sigk))), st) := by
  constructor
  · intro call
    exact ⟨submit_unsigned_call env (env.intoCall call), rfl⟩
  · have aux : ∀ (l : List Pub) (i : Nat),
        (∀ k' ∈ l, ∀ j,
          SignedPayload.sign env ops (f (mkAccount env j k')) = none) →
        forAnyKeys env
          (fun account s =>
            let payload := f account
            match SignedPayload.sign env ops payload with
            | none => (none, s)
            | some signature =>
              (submit_unsigned_transaction env (f2 payload signature), s))
          (l ++ k :: l2) i st
        = (some (mkAccount env (i + l.length) k,
            submit_unsigned_call env
              (env.intoCall (f2 (f (mkAccount env (i + l.length) k)) sigk))), st) := by
      intro l
      induction l with
      | nil =>
        intro i _
        simp [forAnyKeys, hsucc i, submit_unsigned_transaction]
      | cons k2 rest ih =>
        intro i hk
        simp only [List.cons_append, forAnyKeys,
          hk k2 (List.mem_cons_self k2 rest) i]
        have harith : i + (k2 :: rest).length = i + 1 + rest.length := by
          simp only [List.length_cons]
          omega
        rw [harith]
        exact ih (i + 1) fun k3 hk3 => hk k3 (List.mem_cons_of_mem _ hk3)
    have h0 := aux l1 0 hfail
    simpa using h0

/-- Witness for C9: keys `[0, 1, 2]`, only key `1` signs, the queue
rejects everything — the pass still stops at key `1` with its `Err`. -/
theorem claim_unsigned_always_some_witness :
    (∀ call : Nat, ∃ r, submit_unsigned_transaction envSignOneRejectAll call
        = some r)
    ∧ ForAny.send_unsigned_transaction envSignOneRejectAll opsSelf
        (Signer.with_filter Signer.default [0, 1, 2])
        (fun a => a.public) (fun p s => p + s) st0
      = (some (mkAccount envSignOneRejectAll 1 1,
          submit_unsigned_call envSignOneRejectAll
            (envSignOneRejectAll.intoCall 6)), st0) :=
  claim_unsigned_always_some envSignOneRejectAll opsSelf
    (fun a => a.public) (fun p s => p + s) st0 [0] 1 [2] 5
    (by
      intro k2 hk2 j
      have hk0 : k2 = 0 := by simpa using hk2
      subst hk0
      rfl)
    (fun _ => rfl)

end Claims

end Offchain
